import Mathlib

/-!
Shallow embedding of the serval guest SDK (`src/lib.rs`): the guest-side
memory-marshalling protocol of a wasm module.  The source has four
operations: `invoke_extension` (issues the single foreign call
`invoke_raw` and interprets the signed result), `alloc` / `dealloc`
(the exported allocator entry points, thin wrappers around Rust's
`Vec::with_capacity` + `mem::forget` and `Vec::from_raw_parts` + drop),
and `get_bytes_from_host` (decodes the length-prefixed buffer at an
offset, copies the payload out, and releases the span).

Modelling choices, stated once here:
* linear memory is `Mem := Nat → Nat`, a byte per address;
* the host side of `invoke_raw` is an arbitrary function from the four
  call arguments to the returned `i32` (an `Int`) together with the
  memory as the host left it;
* the effects the claims talk about (which foreign call was issued,
  which spans were read, which span was released) are recorded in an
  event trace returned alongside each result;
* Rust's global allocator, reached through `Vec`, is modelled as a
  first-fit allocator over a table of live `(offset, size)` regions,
  reflecting the documented contract: a successful allocation is a
  fresh region disjoint from every live one, never at address 0
  (`Vec`'s pointer is `NonNull`), and a zero-capacity `Vec` performs no
  allocation and reports the dangling pointer `NonNull::dangling()`,
  which for `u8` is address 1.
-/

namespace Serval

/-- Linear memory: a byte value for every 32-bit offset. -/
def Mem : Type := Nat → Nat

/-- Observable effects of the guest code, in program order. -/
inductive Event where
  | invokeEv : Nat → Nat → Nat → Nat → Event
  | readEv : Nat → Nat → Event
  | deallocEv : Nat → Nat → Event
deriving DecidableEq, Repr

/-- Recognizer for the foreign-call event. -/
def isInvoke : Event → Bool
  | Event.invokeEv _ _ _ _ => true
  | _ => false

/-- Recognizer for the release event. -/
def isDealloc : Event → Bool
  | Event.deallocEv _ _ => true
  | _ => false

/-- `u32::from_le_bytes` on the four bytes of a little-endian length
prefix, as read from memory (`lib.rs` line 85). -/
def fromLE4 (b : List Nat) : Nat :=
  b.getD 0 0 + 256 * b.getD 1 0 + 65536 * b.getD 2 0 + 16777216 * b.getD 3 0

/-- The 4-byte little-endian encoding of `n` (the wire format the host
writes; `n.to_le_bytes()` for a `u32`). -/
def toLE4 (n : Nat) : List Nat :=
  [n % 256, n / 256 % 256, n / 65536 % 256, n / 16777216 % 256]

/-- `std::ptr::copy(src, dst, n)` viewed from the destination: the `n`
bytes of memory starting at `p`. -/
def readBytes (mem : Mem) (p n : Nat) : List Nat :=
  (List.range n).map (fun i => mem (p + i))

/-- `NonNull::dangling()` for `u8`: the well-aligned non-null address a
`Vec<u8>` reports when it owns no allocation.  `align_of::<u8>() = 1`,
so the address is 1. -/
def danglingPtr : Nat := 1

/-- `Vec::<u8>::as_ptr`: the buffer's start address when the vector is
nonempty (its allocation lives at `base`), and the dangling pointer when
the vector is empty and owns no allocation. -/
def vecPtr (base : Nat) (v : List Nat) : Nat :=
  if v.isEmpty then danglingPtr else base

/-- The host side of the imported call `invoke_raw`: from the four
integer arguments `(name_ptr, name_len, data_ptr, data_len)` to the
returned `i32` and the memory contents when control comes back to the
guest. -/
def HostFn : Type := Nat → Nat → Nat → Nat → Int × Mem

/-- `get_bytes_from_host(ptr)` (`lib.rs` lines 78-103): read the 4-byte
little-endian length prefix at `ptr`, read that many payload bytes from
`ptr + 4` into a fresh buffer, release the whole `4 + N`-byte span via
`dealloc(ptr, 4 + N)`, and return `Ok(bytes)`.  The second component is
the event trace, in program order. -/
def get_bytes_from_host (mem : Mem) (ptr : Nat) :
    Except Int (List Nat) × List Event :=
  let num_bytes := fromLE4 (readBytes mem ptr 4)
  let bytes := readBytes mem (ptr + 4) num_bytes
  let alloc_size := 4 + num_bytes
  (Except.ok bytes,
   [Event.readEv ptr 4, Event.readEv (ptr + 4) num_bytes,
    Event.deallocEv ptr alloc_size])

/-- `invoke_extension(extension_name, data)` (`lib.rs` lines 13-38):
take the addresses and lengths of the name bytes and the data bytes,
issue the single foreign call `invoke_raw`, and interpret the signed
result: negative means failure (the error carries the code verbatim),
non-negative is the offset of a boundary buffer, handed to
`get_bytes_from_host`.  `nameBase` and `dataBase` are the addresses at
which the two byte ranges reside. -/
def invoke_extension (host : HostFn) (name data : List Nat)
    (nameBase dataBase : Nat) : Except Int (List Nat) × List Event :=
  let namePtr := vecPtr nameBase name
  let dataPtr := vecPtr dataBase data
  let r := host namePtr name.length dataPtr data.length
  let ev := Event.invokeEv namePtr name.length dataPtr data.length
  if r.1 < 0 then
    (Except.error r.1, [ev])
  else
    let g := get_bytes_from_host r.2 r.1.toNat
    (g.1, ev :: g.2)

/-- Do the half-open regions `[p, p + len)` and `[q, q + m)` intersect? -/
def overlapB (p len q m : Nat) : Bool :=
  decide (q < p + len) && decide (p < q + m)

/-- Is `[p, p + len)` disjoint from every live region? -/
def fitsAt (live : List (Nat × Nat)) (p len : Nat) : Bool :=
  live.all (fun r => !overlapB p len r.1 r.2)

/-- One past the end of the highest live region (at least 1: address 0
is never handed out). -/
def maxEnd (live : List (Nat × Nat)) : Nat :=
  live.foldr (fun r acc => max (r.1 + r.2) acc) 1

/-- The global allocator's placement choice, modelled as lowest-address
first fit over the live-region table; the search never chooses
address 0 and always finds a fit at or below `maxEnd live`. -/
def firstFit (live : List (Nat × Nat)) (len : Nat) : Nat :=
  match (List.range (maxEnd live)).find? (fun i => fitsAt live (i + 1) len) with
  | some i => i + 1
  | none => maxEnd live

/-- `alloc(len)` (`lib.rs` lines 43-54): `Vec::with_capacity(len)`,
`mem::forget(buf)`, return `buf.as_mut_ptr()`.  For `len = 0` the `Vec`
owns no allocation and the pointer is dangling (address 1); otherwise a
fresh region of `len` bytes is reserved and stays live after the call
returns (the buffer is forgotten, not dropped). -/
def alloc (len : Nat) (live : List (Nat × Nat)) : Nat × List (Nat × Nat) :=
  if len = 0 then (danglingPtr, live)
  else
    let p := firstFit live len
    (p, (p, len) :: live)

/-- `dealloc(ptr, size)` (`lib.rs` lines 61-65):
`Vec::from_raw_parts(ptr, size, size)` then drop.  Defined (`some`)
exactly when the `Vec::from_raw_parts` safety contract holds: either
`size = 0` with a non-null pointer (the drop releases nothing), or
`(ptr, size)` is a live allocation, which the drop releases.  `none`
models the undefined behavior of violating the contract. -/
def dealloc (ptr size : Nat) (live : List (Nat × Nat)) :
    Option (List (Nat × Nat)) :=
  if size = 0 then
    if ptr = 0 then none else some live
  else if (ptr, size) ∈ live then some (live.erase (ptr, size))
  else none

/-! ### Allocator lemmas -/

theorem maxEnd_pos (live : List (Nat × Nat)) : 1 ≤ maxEnd live := by
  induction live with
  | nil => simp [maxEnd]
  | cons r l ih =>
    simp only [maxEnd, List.foldr_cons] at ih ⊢
    omega

theorem le_maxEnd {live : List (Nat × Nat)} {r : Nat × Nat} (h : r ∈ live) :
    r.1 + r.2 ≤ maxEnd live := by
  induction live with
  | nil => cases h
  | cons a l ih =>
    simp only [maxEnd, List.foldr_cons]
    rcases List.mem_cons.mp h with h1 | h2
    · subst h1; omega
    · have := ih h2
      simp only [maxEnd] at this
      omega

theorem fitsAt_maxEnd (live : List (Nat × Nat)) (len : Nat) :
    fitsAt live (maxEnd live) len = true := by
  simp only [fitsAt, List.all_eq_true]
  intro r hr
  have := le_maxEnd hr
  simp only [overlapB, Bool.not_eq_eq_eq_not, Bool.not_true,
    Bool.and_eq_false_iff, decide_eq_false_iff_not, not_lt]
  omega

theorem firstFit_fits (live : List (Nat × Nat)) (len : Nat) :
    fitsAt live (firstFit live len) len = true := by
  unfold firstFit
  cases hf : (List.range (maxEnd live)).find? (fun i => fitsAt live (i + 1) len) with
  | none => exact fitsAt_maxEnd live len
  | some i =>
    show fitsAt live (i + 1) len = true
    have := List.find?_some hf
    simpa using this

theorem firstFit_pos (live : List (Nat × Nat)) (len : Nat) :
    1 ≤ firstFit live len := by
  unfold firstFit
  cases (List.range (maxEnd live)).find? (fun i => fitsAt live (i + 1) len) with
  | none => exact maxEnd_pos live
  | some i => exact Nat.le_add_left 1 i

theorem fitsAt_not_mem {live : List (Nat × Nat)} {p len : Nat}
    (hfit : fitsAt live p len = true) (hlen : 0 < len) : (p, len) ∉ live := by
  intro hmem
  have := (List.all_eq_true.mp hfit) _ hmem
  simp only [overlapB, Bool.not_eq_eq_eq_not, Bool.not_true,
    Bool.and_eq_false_iff, decide_eq_false_iff_not, not_lt] at this
  omega

/-- C6: offset 0 never appears as a valid handle or buffer location:
for every length and every allocator state, the pointer returned by
`alloc` is never address 0 (a zero-capacity `Vec` reports the dangling
pointer 1, and the placement search never chooses address 0). -/
theorem alloc_ne_zero (len : Nat) (live : List (Nat × Nat)) :
    (alloc len live).1 ≠ 0 := by
  by_cases h : len = 0
  · simp [alloc, h, danglingPtr]
  · have := firstFit_pos live len
    simp only [alloc, if_neg h]
    omega

/-- C7: allocation/free pairing: for any size `L` and any allocator
state, `alloc L` followed by `dealloc` at the returned pointer with the
identical size never faults (the release reconstructs exactly the
original allocation), and it restores the allocator state exactly, so
the subsequent `alloc L` behaves identically to the first — the pair
leaks no memory. -/
theorem alloc_dealloc_pair_no_leak (L : Nat) (live : List (Nat × Nat)) :
    ∃ l2, dealloc (alloc L live).1 L (alloc L live).2 = some l2 ∧
      l2 = live ∧ alloc L l2 = alloc L live := by
  by_cases h : L = 0
  · subst h
    refine ⟨live, ?_, rfl, rfl⟩
    simp [alloc, dealloc, danglingPtr]
  · refine ⟨live, ?_, rfl, rfl⟩
    have halloc : alloc L live =
        (firstFit live L, (firstFit live L, L) :: live) := by
      simp [alloc, if_neg h]
    rw [halloc]
    show dealloc (firstFit live L) L ((firstFit live L, L) :: live) = some live
    unfold dealloc
    rw [if_neg h, if_pos (List.mem_cons_self _ _), List.erase_cons_head]

/-- C10: `alloc 0` reserves nothing — it returns the well-aligned
non-null dangling pointer (address 1 for `u8`) and leaves the live
table unchanged — and the paired `dealloc(ptr, 0)` on that pointer is
safe (it does not fault) and releases nothing. -/
theorem alloc_zero_dangling (live : List (Nat × Nat)) :
    (alloc 0 live).1 = danglingPtr ∧ danglingPtr ≠ 0 ∧
      (alloc 0 live).2 = live ∧
      dealloc (alloc 0 live).1 0 live = some live := by
  refine ⟨rfl, by simp [danglingPtr], rfl, ?_⟩
  simp [alloc, dealloc, danglingPtr]

/-- C9: a reservation outlives the `alloc` call that created it: for a
positive `len`, the region returned by `alloc len` is recorded live
when the call returns (the backing buffer is forgotten, not dropped);
any further `alloc` keeps it live and places the new region disjoint
from it (exclusive reservation); a `dealloc` with any other
`(ptr, size)` pair keeps it live; and exactly the matching
`dealloc(ptr, len)` removes it. -/
theorem alloc_region_reserved (len len2 q m : Nat)
    (live l2 : List (Nat × Nat)) (h : 0 < len) (h2 : 0 < len2)
    (hd : dealloc q m (alloc len live).2 = some l2)
    (hne : (q, m) ≠ ((alloc len live).1, len)) :
    ((alloc len live).1, len) ∈ (alloc len live).2 ∧
    ((alloc len live).1, len) ∈ (alloc len2 (alloc len live).2).2 ∧
    overlapB (alloc len2 (alloc len live).2).1 len2 (alloc len live).1 len
      = false ∧
    ((alloc len live).1, len) ∈ l2 ∧
    ∃ l3, dealloc (alloc len live).1 len (alloc len live).2 = some l3 ∧
      ((alloc len live).1, len) ∉ l3 := by
  have hlen : len ≠ 0 := Nat.pos_iff_ne_zero.mp h
  have hlen2 : len2 ≠ 0 := Nat.pos_iff_ne_zero.mp h2
  have halloc : alloc len live =
      (firstFit live len, (firstFit live len, len) :: live) := by
    simp [alloc, if_neg hlen]
  rw [halloc] at hd hne ⊢
  simp only at hd hne ⊢
  set p := firstFit live len with hp
  set l1 : List (Nat × Nat) := (p, len) :: live with hl1
  have hmem : (p, len) ∈ l1 := List.mem_cons_self _ _
  have halloc2 : alloc len2 l1 = (firstFit l1 len2, (firstFit l1 len2, len2) :: l1) := by
    simp [alloc, if_neg hlen2]
  refine ⟨hmem, ?_, ?_, ?_, ?_⟩
  · rw [halloc2]
    exact List.mem_cons_of_mem _ hmem
  · rw [halloc2]
    have hfit := firstFit_fits l1 len2
    have := (List.all_eq_true.mp hfit) _ hmem
    simpa using this
  · unfold dealloc at hd
    by_cases hm : m = 0
    · subst hm
      rw [if_pos rfl] at hd
      by_cases hq : q = 0
      · rw [if_pos hq] at hd
        exact absurd hd (by simp)
      · rw [if_neg hq] at hd
        injection hd with hd
        exact hd ▸ hmem
    · rw [if_neg hm] at hd
      by_cases hqm : (q, m) ∈ l1
      · rw [if_pos hqm] at hd
        injection hd with hd
        exact hd ▸ ((List.mem_erase_of_ne hne.symm).mpr hmem)
      · rw [if_neg hqm] at hd
        exact absurd hd (by simp)
  · refine ⟨live, ?_, ?_⟩
    · simp only [dealloc, if_neg hlen, if_pos hmem]
      rw [hl1, List.erase_cons_head]
    · exact fitsAt_not_mem (firstFit_fits live len) h

/-- Witness for C9 at a concrete instance: `alloc 3` on the empty state
returns region `(1, 3)`; a `dealloc 5 0` leaves it live, a further
`alloc 2` places `(4, 2)` disjointly, and `dealloc 1 3` removes it. -/
theorem alloc_region_reserved_witness :
    0 < 3 ∧ 0 < 2 ∧
    dealloc 5 0 (alloc 3 ([] : List (Nat × Nat))).2 = some [(1, 3)] ∧
    ((5 : Nat), (0 : Nat)) ≠ ((alloc 3 ([] : List (Nat × Nat))).1, 3) ∧
    (((alloc 3 ([] : List (Nat × Nat))).1, 3) ∈
        (alloc 3 ([] : List (Nat × Nat))).2 ∧
      ((alloc 3 ([] : List (Nat × Nat))).1, 3) ∈
        (alloc 2 (alloc 3 ([] : List (Nat × Nat))).2).2 ∧
      overlapB (alloc 2 (alloc 3 ([] : List (Nat × Nat))).2).1 2
        (alloc 3 ([] : List (Nat × Nat))).1 3 = false ∧
      ((alloc 3 ([] : List (Nat × Nat))).1, 3) ∈ [(1, 3)] ∧
      ∃ l3, dealloc (alloc 3 ([] : List (Nat × Nat))).1 3
          (alloc 3 ([] : List (Nat × Nat))).2 = some l3 ∧
        ((alloc 3 ([] : List (Nat × Nat))).1, 3) ∉ l3) :=
  ⟨by decide, by decide, by decide, by decide,
   alloc_region_reserved 3 2 5 0 [] [(1, 3)] (by decide) (by decide)
     (by decide) (by decide)⟩

/-! ### Wire-format lemmas and reader theorems -/

theorem fromLE4_toLE4 {n : Nat} (h : n < 4294967296) :
    fromLE4 (toLE4 n) = n := by
  show n % 256 + 256 * (n / 256 % 256) + 65536 * (n / 65536 % 256) +
    16777216 * (n / 16777216 % 256) = n
  omega

/-- The all-zero memory (used by concrete host stubs below). -/
def zeroMem : Mem := fun _ => 0

/-- A memory image holding the boundary buffer `[2, 0, 0, 0, 9, 8]`
(length prefix 2, payload `[9, 8]`) at offset 3. -/
def memBuf : Mem := fun a => [7, 7, 7, 2, 0, 0, 0, 9, 8].getD a 0

/-- C3: for every offset whose first 4 bytes decode as little-endian
`N`, `get_bytes_from_host` returns exactly the `N` payload bytes copied
from `p + 4`, and its trace releases exactly one span — `4 + N` bytes
at the same offset `p` — as its final action, after both reads. -/
theorem reader_copies_then_releases (mem : Mem) (p N : Nat)
    (hN : fromLE4 (readBytes mem p 4) = N) :
    (get_bytes_from_host mem p).1 = Except.ok (readBytes mem (p + 4) N) ∧
    (readBytes mem (p + 4) N).length = N ∧
    (get_bytes_from_host mem p).2.filter isDealloc
      = [Event.deallocEv p (4 + N)] ∧
    (get_bytes_from_host mem p).2
      = [Event.readEv p 4, Event.readEv (p + 4) N,
         Event.deallocEv p (4 + N)] := by
  subst hN
  refine ⟨rfl, ?_, ?_, rfl⟩
  · simp [readBytes]
  · simp [get_bytes_from_host, List.filter, isDealloc]

/-- Witness for C3: the buffer `[2, 0, 0, 0, 9, 8]` at offset 3 yields
payload `[9, 8]` and a single release of 6 bytes at offset 3. -/
theorem reader_copies_then_releases_witness :
    fromLE4 (readBytes memBuf 3 4) = 2 ∧
    ((get_bytes_from_host memBuf 3).1
        = Except.ok (readBytes memBuf 7 2) ∧
      (readBytes memBuf 7 2).length = 2 ∧
      (get_bytes_from_host memBuf 3).2.filter isDealloc
        = [Event.deallocEv 3 6] ∧
      (get_bytes_from_host memBuf 3).2
        = [Event.readEv 3 4, Event.readEv 7 2, Event.deallocEv 3 6]) :=
  ⟨by decide, reader_copies_then_releases memBuf 3 2 (by decide)⟩

/-- C4: a boundary buffer whose length prefix is 0 yields the empty
payload, and the single release is of exactly 4 bytes at the same
offset. -/
theorem reader_zero_length (mem : Mem) (p : Nat)
    (h0 : fromLE4 (readBytes mem p 4) = 0) :
    (get_bytes_from_host mem p).1 = Except.ok [] ∧
    (get_bytes_from_host mem p).2.filter isDealloc
      = [Event.deallocEv p 4] := by
  constructor
  · show Except.ok (readBytes mem (p + 4) (fromLE4 (readBytes mem p 4)))
      = Except.ok ([] : List Nat)
    rw [h0]
    rfl
  · show List.filter isDealloc
      [Event.readEv p 4,
       Event.readEv (p + 4) (fromLE4 (readBytes mem p 4)),
       Event.deallocEv p (4 + fromLE4 (readBytes mem p 4))]
      = [Event.deallocEv p 4]
    rw [h0]
    rfl

/-- Witness for C4: on the all-zero memory, the prefix at offset 9
decodes as 0, the result is empty, and exactly 4 bytes are released. -/
theorem reader_zero_length_witness :
    fromLE4 (readBytes zeroMem 9 4) = 0 ∧
    ((get_bytes_from_host zeroMem 9).1 = Except.ok [] ∧
      (get_bytes_from_host zeroMem 9).2.filter isDealloc
        = [Event.deallocEv 9 4]) :=
  ⟨by decide, reader_zero_length zeroMem 9 (by decide)⟩

/-! ### Invoker theorems -/

/-- A host stub that accepts every call and hands back offset 5 into
the all-zero memory (an empty boundary buffer). -/
def hostStub : HostFn := fun _ _ _ _ => ((5 : Int), zeroMem)

/-- A host stub that rejects every call with code `-42` and writes
nothing. -/
def hostNeg : HostFn := fun _ _ _ _ => ((-42 : Int), zeroMem)

/-- The memory image an echo host stub leaves behind: the boundary
buffer `len = 5` followed by the bytes of `hello` at offset 7. -/
def memEcho : Mem := fun a =>
  if 7 ≤ a then [5, 0, 0, 0, 104, 101, 108, 108, 111].getD (a - 7) 0 else 0

/-- An echo host stub: accepts every call and reports the buffer it
wrote at offset 7 of `memEcho`. -/
def hostEcho : HostFn := fun _ _ _ _ => ((7 : Int), memEcho)

/-- C1: round trip.  If the host call returns a non-negative offset `p`
and memory at `p` holds the 4-byte little-endian encoding of the length
of `D` immediately followed by the bytes of `D`, then
`invoke_extension` returns `Ok D` byte-for-byte — the length prefix is
not part of the result. -/
theorem round_trip (host : HostFn) (name D : List Nat) (nb db p : Nat)
    (mem1 : Mem)
    (hhost : host (vecPtr nb name) name.length (vecPtr db D) D.length
      = ((p : Int), mem1))
    (hlen : readBytes mem1 p 4 = toLE4 D.length)
    (hdata : readBytes mem1 (p + 4) D.length = D)
    (hsize : D.length < 4294967296) :
    (invoke_extension host name D nb db).1 = Except.ok D := by
  have hnn : ¬ ((p : Int) < 0) := by
    simp
  show (if (host (vecPtr nb name) name.length (vecPtr db D) D.length).1 < 0
      then
        (Except.error
          (host (vecPtr nb name) name.length (vecPtr db D) D.length).1,
         [Event.invokeEv (vecPtr nb name) name.length (vecPtr db D)
            D.length])
      else
        ((get_bytes_from_host
            (host (vecPtr nb name) name.length (vecPtr db D) D.length).2
            (host (vecPtr nb name) name.length (vecPtr db D)
              D.length).1.toNat).1,
         Event.invokeEv (vecPtr nb name) name.length (vecPtr db D)
            D.length ::
          (get_bytes_from_host
            (host (vecPtr nb name) name.length (vecPtr db D) D.length).2
            (host (vecPtr nb name) name.length (vecPtr db D)
              D.length).1.toNat).2)).1
      = Except.ok D
  rw [hhost]
  simp only [if_neg hnn]
  show (get_bytes_from_host mem1 ((p : Int)).toNat).1 = Except.ok D
  rw [Int.toNat_natCast]
  show Except.ok (readBytes mem1 (p + 4) (fromLE4 (readBytes mem1 p 4)))
    = Except.ok D
  rw [hlen, fromLE4_toLE4 hsize, hdata]

/-- Witness for C1: the end-to-end echo — an echo host stub that wraps
the payload `hello` in the wire format at offset 7 makes
`invoke_extension` return exactly `hello`. -/
theorem round_trip_witness :
    hostEcho (vecPtr 20 [101, 99, 104, 111]) 4
        (vecPtr 30 [104, 101, 108, 108, 111]) 5 = ((7 : Int), memEcho) ∧
    readBytes memEcho 7 4 = toLE4 5 ∧
    readBytes memEcho 11 5 = [104, 101, 108, 108, 111] ∧
    (5 : Nat) < 4294967296 ∧
    (invoke_extension hostEcho [101, 99, 104, 111]
        [104, 101, 108, 108, 111] 20 30).1
      = Except.ok [104, 101, 108, 108, 111] :=
  ⟨rfl, by decide, by decide, by decide,
   round_trip hostEcho [101, 99, 104, 111] [104, 101, 108, 108, 111]
     20 30 7 memEcho rfl (by decide) (by decide) (by decide)⟩

/-- C2: `invoke_extension` fails exactly when the foreign call returns
a negative value; the failure carries that exact numeric code, and
every non-negative result (0 included) is handed to the reader and
produces a success, never an error. -/
theorem invoke_error_iff_negative (host : HostFn) (name data : List Nat)
    (nb db : Nat) :
    ((∃ e, (invoke_extension host name data nb db).1 = Except.error e) ↔
      (host (vecPtr nb name) name.length (vecPtr db data)
        data.length).1 < 0) ∧
    ((host (vecPtr nb name) name.length (vecPtr db data)
        data.length).1 < 0 →
      (invoke_extension host name data nb db).1
        = Except.error (host (vecPtr nb name) name.length
            (vecPtr db data) data.length).1) ∧
    (0 ≤ (host (vecPtr nb name) name.length (vecPtr db data)
        data.length).1 →
      ∃ bs, (invoke_extension host name data nb db).1
        = Except.ok bs) := by
  by_cases hr : (host (vecPtr nb name) name.length (vecPtr db data)
      data.length).1 < 0
  · have hres : (invoke_extension host name data nb db).1
        = Except.error (host (vecPtr nb name) name.length
            (vecPtr db data) data.length).1 := by
      unfold invoke_extension
      rw [if_pos hr]
    exact ⟨⟨fun _ => hr, fun _ => ⟨_, hres⟩⟩, fun _ => hres,
      fun h0 => absurd hr (not_lt.mpr h0)⟩
  · have hres : (invoke_extension host name data nb db).1
        = (get_bytes_from_host
            (host (vecPtr nb name) name.length (vecPtr db data)
              data.length).2
            (host (vecPtr nb name) name.length (vecPtr db data)
              data.length).1.toNat).1 := by
      unfold invoke_extension
      rw [if_neg hr]
    refine ⟨⟨?_, fun hc => absurd hc hr⟩, fun hc => absurd hc hr,
      fun _ => ⟨_, hres⟩⟩
    rintro ⟨e, he⟩
    rw [hres] at he
    exact absurd he (by simp [get_bytes_from_host])

/-- Witness for C2: a host stub answering `-42` makes the call fail
with exactly that code. -/
theorem invoke_error_iff_negative_witness :
    (hostNeg (vecPtr 0 [120]) (List.length [120]) (vecPtr 0 [])
        (List.length ([] : List Nat))).1 < 0 ∧
    (invoke_extension hostNeg [120] [] 0 0).1
      = Except.error (hostNeg (vecPtr 0 [120]) (List.length [120])
          (vecPtr 0 []) (List.length ([] : List Nat))).1 :=
  ⟨by decide,
   (invoke_error_iff_negative hostNeg [120] [] 0 0).2.1 (by decide)⟩

/-- C5: the foreign call carries exactly the four integers — name
address, name byte length, data address, data byte length — and the
concrete call of extension `x` with an empty payload passes
`data_len = 0` together with the non-null dangling data pointer and
succeeds. -/
theorem invoke_call_encoding (host : HostFn) (name data : List Nat)
    (nb db : Nat) :
    (invoke_extension host name data nb db).2.filter isInvoke
      = [Event.invokeEv (vecPtr nb name) name.length (vecPtr db data)
          data.length] ∧
    vecPtr db ([] : List Nat) = danglingPtr ∧ danglingPtr ≠ 0 ∧
    (invoke_extension hostStub [120] [] nb db).2.filter isInvoke
      = [Event.invokeEv (vecPtr nb [120]) 1 danglingPtr 0] ∧
    (invoke_extension hostStub [120] [] nb db).1
      = Except.ok ([] : List Nat) := by
  refine ⟨?_, rfl, by simp [danglingPtr], ?_, rfl⟩
  · unfold invoke_extension
    by_cases hr : (host (vecPtr nb name) name.length (vecPtr db data)
        data.length).1 < 0
    · rw [if_pos hr]
      rfl
    · rw [if_neg hr]
      rfl
  · rfl

/-- C8: the foreign call `invoke_raw` is issued exactly once per
`invoke_extension` call — never skipped and never retried, whatever the
host answers. -/
theorem invoke_raw_called_once (host : HostFn) (name data : List Nat)
    (nb db : Nat) :
    (invoke_extension host name data nb db).2.countP isInvoke = 1 := by
  unfold invoke_extension
  by_cases hr : (host (vecPtr nb name) name.length (vecPtr db data)
      data.length).1 < 0
  · rw [if_pos hr]
    rfl
  · rw [if_neg hr]
    rfl

end Serval
